import Mathlib

/-!
Verification of the core of `Fasta.py` (class `AlignmentFasta`):
an in-memory multiple-sequence alignment (an insertion-ordered mapping
from header to sequence), its constructor, the gap-column filter
`__delete_gaped_columns`, and the fixed-width serialisation of
`write_file`.

Modelling conventions:
* a Python `dict[str, str]` is modelled as an insertion-ordered
  association list `List (String × List Char)`; a sequence string is
  modelled as the list of its characters;
* the pandas pipeline in `__delete_gaped_columns`
  (`DataFrame.from_dict(..., orient='index')`, dropping every column in
  which some cell equals `'-'`, `T.to_dict('list')`, `''.join`) is
  modelled cell by cell: the frame has one column per index below the
  maximal row length, a missing cell (NaN padding) never equals `'-'`,
  and a row contributes exactly its existing cells at the kept columns;
* the constructor's `len(list(sequences.values())[0])`, which raises
  `IndexError` on an empty mapping, is modelled with `Option`
  (`none` = the uncaught exception).
-/

namespace Fasta

/-- The alignment record of `AlignmentFasta.__init__`: the sequences
mapping plus the two stored attributes `seq_length` and
`num_of_sequences`. -/
structure AlignmentFasta where
  sequences : List (String × List Char)
  seq_length : Nat
  num_of_sequences : Nat
  deriving Repr, DecidableEq

/-- `AlignmentFasta.__init__`: stores the mapping unchanged, sets
`seq_length` to the length of the first value and `num_of_sequences` to
the mapping size.  On an empty mapping `list(sequences.values())[0]`
raises `IndexError`, modelled as `none`.  No other validation occurs. -/
def init (sequences : List (String × List Char)) : Option AlignmentFasta :=
  match sequences with
  | [] => none
  | row :: rest =>
      some { sequences := row :: rest
             seq_length := row.2.length
             num_of_sequences := (row :: rest).length }

/-- One cell test of `seq_df == '-'`: column `c` of a row.  A cell
beyond the row's end is a NaN pad in the dataframe and never equals the
gap character. -/
def cellIsGap (row : List Char) (c : Nat) : Bool :=
  row[c]? == some '-'

/-- Column `c` of the dataframe contains a gap in some row:
`(seq_df == '-').any()` for that column. -/
def colHasGap (sequences : List (String × List Char)) (c : Nat) : Bool :=
  sequences.any (fun row => cellIsGap row.2 c)

/-- Number of columns of `pd.DataFrame.from_dict(d, orient='index')`:
the maximal value length. -/
def maxSeqLen (sequences : List (String × List Char)) : Nat :=
  sequences.foldr (fun row m => max row.2.length m) 0

/-- The kept column indices, in ascending order: those columns of the
dataframe that `seq_df.loc[:, ~(seq_df == '-').any()]` retains. -/
def keptCols (sequences : List (String × List Char)) : List Nat :=
  (List.range (maxSeqLen sequences)).filter
    (fun c => !colHasGap sequences c)

/-- `AlignmentFasta.__delete_gaped_columns` on the sequences mapping:
drop every column in which some row has `'-'`, rebuild each row from its
cells at the kept columns (in ascending column order), keep key order. -/
def delete_gaped_columns (sequences : List (String × List Char)) :
    List (String × List Char) :=
  sequences.map (fun row =>
    (row.1, (keptCols sequences).filterMap (fun c => row.2[c]?)))

/-- `AlignmentFasta.__delete_gaped_columns` as the in-place mutation of
the record: it reassigns `self.sequences` and touches neither
`seq_length` nor `num_of_sequences`. -/
def deleteGapedColumns (a : AlignmentFasta) : AlignmentFasta :=
  { a with sequences := delete_gaped_columns a.sequences }

/-- The chunking of `write_file`:
`sequence[i:i + w] for i in range(0, len(sequence), w)`, at the source's
fixed `w = 60`. -/
def pychunks (w : Nat) (s : List Char) : List (List Char) :=
  if h : s = [] ∨ w = 0 then []
  else s.take w :: pychunks w (s.drop w)
termination_by s.length
decreasing_by
  push_neg at h
  simp only [List.length_drop]
  have : 0 < s.length := List.length_pos.mpr h.1
  omega

/-- The serialisation of `write_file`, one `(header line, body chunks)`
pair per entry in insertion order: the header is written as
`f'>{header}'` and the body as blocks of 60 characters. -/
def write_file_pairs (sequences : List (String × List Char)) :
    List (String × List (List Char)) :=
  sequences.map (fun row => (">" ++ row.1, pychunks 60 row.2))

/-- Spec-side serializer, for comparison with `write_file_pairs`
(refinement): `Serialize(width: integer = 60)` with the spec's
`InvalidConfiguration` failure (`none`) on a non-positive width. -/
def serializeSpec (w : Int) (sequences : List (String × List Char)) :
    Option (List (String × List (List Char))) :=
  if w ≤ 0 then none
  else some (sequences.map (fun row => (">" ++ row.1, pychunks w.toNat row.2)))

/-! ### Helper lemmas about the gap-column filter -/

theorem maxSeqLen_cons (a : String × List Char) (t : List (String × List Char)) :
    maxSeqLen (a :: t) = max a.2.length (maxSeqLen t) := rfl

theorem maxSeqLen_eq {L : Nat} {s : List (String × List Char)} (hne : s ≠ [])
    (hlen : ∀ row ∈ s, row.2.length = L) : maxSeqLen s = L := by
  induction s with
  | nil => exact absurd rfl hne
  | cons a t ih =>
    rcases t with _ | ⟨b, t'⟩
    · simp [maxSeqLen_cons, maxSeqLen, hlen a (by simp)]
    · have ht : maxSeqLen (b :: t') = L :=
        ih (by simp) (fun row hr => hlen row (List.mem_cons_of_mem _ hr))
      rw [maxSeqLen_cons, ht, hlen a (by simp), Nat.max_self]

theorem colHasGap_eq_false_iff {s : List (String × List Char)} {c : Nat} :
    colHasGap s c = false ↔ ∀ row ∈ s, row.2[c]? ≠ some '-' := by
  simp [colHasGap, cellIsGap, List.any_eq_false]

/-- Membership in the kept-column list, for an alignment whose rows all
have length `L`. -/
theorem mem_keptCols_iff {L : Nat} {s : List (String × List Char)} (hne : s ≠ [])
    (hlen : ∀ row ∈ s, row.2.length = L) {c : Nat} :
    c ∈ keptCols s ↔ c < L ∧ ∀ row ∈ s, row.2.getD c '-' ≠ '-' := by
  rw [keptCols, List.mem_filter, List.mem_range, maxSeqLen_eq hne hlen,
    Bool.not_eq_eq_eq_not, Bool.not_true, colHasGap_eq_false_iff]
  constructor
  · rintro ⟨hc, hall⟩
    refine ⟨hc, fun row hr => ?_⟩
    have hlt : c < row.2.length := by rw [hlen row hr]; exact hc
    have hrow := hall row hr
    simp only [List.getElem?_eq_getElem hlt, ne_eq, Option.some.injEq] at hrow
    simpa only [List.getD_eq_getElem?_getD, List.getElem?_eq_getElem hlt,
      Option.getD_some, ne_eq] using hrow
  · rintro ⟨hc, hall⟩
    refine ⟨hc, fun row hr => ?_⟩
    have hlt : c < row.2.length := by rw [hlen row hr]; exact hc
    have hrow := hall row hr
    simp only [List.getD_eq_getElem?_getD, List.getElem?_eq_getElem hlt,
      Option.getD_some, ne_eq] at hrow
    simpa only [List.getElem?_eq_getElem hlt, ne_eq, Option.some.injEq] using hrow

theorem keptCols_lt {L : Nat} {s : List (String × List Char)} (hne : s ≠ [])
    (hlen : ∀ row ∈ s, row.2.length = L) {c : Nat} (hc : c ∈ keptCols s) :
    c < L := ((mem_keptCols_iff hne hlen).mp hc).1

theorem filterMap_getElem?_eq_map {row : List Char} {ks : List Nat}
    (h : ∀ c ∈ ks, c < row.length) :
    ks.filterMap (fun c => row[c]?) = ks.map (fun c => row.getD c '-') := by
  induction ks with
  | nil => rfl
  | cons k t ih =>
    have hk : k < row.length := h k (by simp)
    rw [List.filterMap_cons, List.getElem?_eq_getElem hk, List.map_cons,
      List.getD_eq_getElem?_getD, List.getElem?_eq_getElem hk,
      ih (fun c hc => h c (List.mem_cons_of_mem _ hc))]
    rfl

/-- On an equal-length alignment, the filter rebuilds every row as the
map over the kept columns of that row's characters. -/
theorem delete_gaped_columns_eq_map {L : Nat} {s : List (String × List Char)}
    (hne : s ≠ []) (hlen : ∀ row ∈ s, row.2.length = L) :
    delete_gaped_columns s =
      s.map (fun row => (row.1, (keptCols s).map (fun c => row.2.getD c '-'))) := by
  unfold delete_gaped_columns
  apply List.map_congr_left
  intro row hr
  rw [filterMap_getElem?_eq_map]
  intro c hc
  rw [hlen row hr]
  exact keptCols_lt hne hlen hc

theorem length_of_mem_delete {L : Nat} {s : List (String × List Char)}
    (hne : s ≠ []) (hlen : ∀ row ∈ s, row.2.length = L)
    {row : String × List Char} (hr : row ∈ delete_gaped_columns s) :
    row.2.length = (keptCols s).length := by
  rw [delete_gaped_columns_eq_map hne hlen] at hr
  obtain ⟨a, _, rfl⟩ := List.mem_map.mp hr
  simp

/-- No character of a filtered row is the gap symbol. -/
theorem gap_not_mem_delete {L : Nat} {s : List (String × List Char)}
    (hne : s ≠ []) (hlen : ∀ row ∈ s, row.2.length = L)
    {row : String × List Char} (hr : row ∈ delete_gaped_columns s) :
    '-' ∉ row.2 := by
  rw [delete_gaped_columns_eq_map hne hlen] at hr
  obtain ⟨a, ha, rfl⟩ := List.mem_map.mp hr
  intro hmem
  obtain ⟨c, hc, hEq⟩ := List.mem_map.mp hmem
  exact ((mem_keptCols_iff hne hlen).mp hc).2 a ha hEq

theorem range_map_getD (l : List Char) :
    (List.range l.length).map (fun c => l.getD c '-') = l := by
  apply List.ext_getElem
  · simp
  · intro i h1 h2
    simp only [List.getElem_map, List.getElem_range]
    rw [List.getD_eq_getElem?_getD, List.getElem?_eq_getElem h2]
    rfl

/-- The filter is the identity on a gap-free equal-length alignment. -/
theorem delete_gaped_columns_of_no_gap {L : Nat} {s : List (String × List Char)}
    (hlen : ∀ row ∈ s, row.2.length = L) (hgap : ∀ row ∈ s, '-' ∉ row.2) :
    delete_gaped_columns s = s := by
  rcases s with _ | ⟨a, t⟩
  · rfl
  have hne : (a :: t) ≠ [] := by simp
  have hkept : keptCols (a :: t) = List.range L := by
    rw [keptCols, maxSeqLen_eq hne hlen, List.filter_eq_self]
    intro c hc
    rw [Bool.not_eq_eq_eq_not, Bool.not_true, colHasGap_eq_false_iff]
    intro row hr hEq
    rw [List.getElem?_eq_some] at hEq
    obtain ⟨hlt', hEq'⟩ := hEq
    exact hgap row hr (hEq' ▸ List.getElem_mem hlt')
  rw [delete_gaped_columns_eq_map hne hlen]
  conv_rhs => rw [← List.map_id (a :: t)]
  apply List.map_congr_left
  intro row hr
  rw [hkept, ← hlen row hr, range_map_getD]
  simp

/-! ### Helper lemmas about the fixed-width chunking of `write_file` -/

theorem pychunks_nil (w : Nat) : pychunks w [] = [] := by
  rw [pychunks]
  simp

theorem pychunks_flatten {w : Nat} (hw : 1 ≤ w) (s : List Char) :
    (pychunks w s).flatten = s := by
  rw [pychunks]
  split
  · rename_i h
    rcases h with h | h
    · simp [h]
    · omega
  · rename_i h
    push_neg at h
    have hpos : 0 < s.length := List.length_pos.mpr h.1
    rw [List.flatten_cons, pychunks_flatten hw (s.drop w), List.take_append_drop]
termination_by s.length
decreasing_by
  simp only [List.length_drop]
  omega

theorem pychunks_mem_length {w : Nat} (hw : 1 ≤ w) {s c : List Char}
    (hc : c ∈ pychunks w s) : 1 ≤ c.length ∧ c.length ≤ w := by
  rw [pychunks] at hc
  split at hc
  · simp at hc
  · rename_i h
    push_neg at h
    have hpos : 0 < s.length := List.length_pos.mpr h.1
    rcases List.mem_cons.mp hc with rfl | hc'
    · simp only [List.length_take]
      omega
    · exact pychunks_mem_length hw hc'
termination_by s.length
decreasing_by
  simp only [List.length_drop]
  omega

theorem pychunks_dropLast_length {w : Nat} (hw : 1 ≤ w) {s c : List Char}
    (hc : c ∈ (pychunks w s).dropLast) : c.length = w := by
  rw [pychunks] at hc
  split at hc
  · simp at hc
  · rename_i h
    push_neg at h
    have hpos : 0 < s.length := List.length_pos.mpr h.1
    rcases hrest : pychunks w (s.drop w) with _ | ⟨b, t⟩
    · rw [hrest] at hc
      simp at hc
    · rw [hrest, List.dropLast_cons₂] at hc
      rcases List.mem_cons.mp hc with rfl | hc'
      · have hdrop : s.drop w ≠ [] := by
          intro hnil
          rw [hnil, pychunks_nil] at hrest
          exact List.noConfusion hrest
        have hlt : w < s.length := by
          have := List.length_pos.mpr hdrop
          simp only [List.length_drop] at this
          omega
        simp only [List.length_take]
        omega
      · rw [← hrest] at hc'
        exact pychunks_dropLast_length hw hc'
termination_by s.length
decreasing_by
  simp only [List.length_drop]
  omega

/-! ### Concrete alignments used by the witness theorems -/

/-- The spec's end-to-end scenario: `{"seq1":"AG-T","seq2":"AC-T","seq3":"A--T"}`. -/
def exEndToEnd : List (String × List Char) :=
  [("seq1", "AG-T".toList), ("seq2", "AC-T".toList), ("seq3", "A--T".toList)]

/-- A two-column alignment in which every column has a gap in some row. -/
def exAllGapped : List (String × List Char) :=
  [("a", "-A".toList), ("b", "A-".toList)]

/-- A gap-free alignment. -/
def exNoGap : List (String × List Char) :=
  [("a", "AC".toList), ("b", "GT".toList)]

/-- A mapping whose two values have different lengths. -/
def exRagged : List (String × List Char) :=
  [("x", "AC".toList), ("y", "G".toList)]

/-! ### Claims -/

/-- C1: for every valid alignment (non-empty, all rows of length `L`)
and gap symbol `'-'`, a column index `c` is kept iff `c < L` and no row
has `'-'` at `c`; the kept indices are in strictly ascending order; and
the filter rebuilds each row as the concatenation of that row's
characters at the kept indices, in that order. -/
theorem C1_filter_keeps_exactly_gapfree_columns {L : Nat}
    (s : List (String × List Char)) (hne : s ≠ [])
    (hlen : ∀ row ∈ s, row.2.length = L) :
    (∀ c : Nat, c ∈ keptCols s ↔ (c < L ∧ ∀ row ∈ s, row.2.getD c '-' ≠ '-'))
    ∧ List.Pairwise (· < ·) (keptCols s)
    ∧ delete_gaped_columns s =
        s.map (fun row => (row.1, (keptCols s).map (fun c => row.2.getD c '-'))) :=
  ⟨fun _ => mem_keptCols_iff hne hlen,
   List.Pairwise.sublist (List.filter_sublist _) (List.pairwise_lt_range _),
   delete_gaped_columns_eq_map hne hlen⟩

/-- Witness for C1 at the spec's end-to-end scenario (`L = 4`). -/
theorem C1_witness :
    (∀ c : Nat, c ∈ keptCols exEndToEnd ↔
        (c < 4 ∧ ∀ row ∈ exEndToEnd, row.2.getD c '-' ≠ '-'))
    ∧ List.Pairwise (· < ·) (keptCols exEndToEnd)
    ∧ delete_gaped_columns exEndToEnd =
        exEndToEnd.map
          (fun row => (row.1, (keptCols exEndToEnd).map (fun c => row.2.getD c '-'))) :=
  C1_filter_keeps_exactly_gapfree_columns exEndToEnd (by decide) (by decide)

/-- C2 counterexample: the constructor succeeds on a mapping whose two
values have lengths 1 and 2, instead of failing as the claim states. -/
theorem C2_counterexample :
    init [("a", "A".toList), ("b", "AB".toList)] =
      some ⟨[("a", "A".toList), ("b", "AB".toList)], 1, 2⟩ := by
  decide

/-- C2 (amended): construction fails only on the empty mapping (and
then with an uncaught `IndexError`, not a dedicated `InvalidAlignment`);
every non-empty mapping is accepted without any length validation. -/
theorem C2_init_fails_only_on_empty (s : List (String × List Char)) :
    init s = none ↔ s = [] := by
  cases s <;> simp [init]

/-- C3: the code at the failing input `{"a": "A-"}` — after the filter
the single sequence has length 1 but the stored `seq_length` is still 2,
so the claimed equal-length invariant does not hold on the reachable
post-filter state. -/
theorem C3_seq_length_stale_after_filter :
    (deleteGapedColumns ⟨[("a", "A-".toList)], 2, 1⟩).sequences = [("a", "A".toList)]
    ∧ (deleteGapedColumns ⟨[("a", "A-".toList)], 2, 1⟩).seq_length = 2
    ∧ ¬ (∀ row ∈ (deleteGapedColumns ⟨[("a", "A-".toList)], 2, 1⟩).sequences,
          row.2.length = (deleteGapedColumns ⟨[("a", "A-".toList)], 2, 1⟩).seq_length) := by
  decide

/-- C4: on a valid alignment the gap-column filter is idempotent. -/
theorem C4_filter_idempotent {L : Nat} (s : List (String × List Char))
    (hne : s ≠ []) (hlen : ∀ row ∈ s, row.2.length = L) :
    delete_gaped_columns (delete_gaped_columns s) = delete_gaped_columns s :=
  delete_gaped_columns_of_no_gap (L := (keptCols s).length)
    (fun _ hr => length_of_mem_delete hne hlen hr)
    (fun _ hr => gap_not_mem_delete hne hlen hr)

/-- Witness for C4 at the spec's end-to-end scenario. -/
theorem C4_witness :
    delete_gaped_columns (delete_gaped_columns exEndToEnd) =
      delete_gaped_columns exEndToEnd :=
  C4_filter_idempotent (L := 4) exEndToEnd (by decide) (by decide)

/-- C5: on a valid alignment the filter leaves the identifiers and
their order unchanged, and all values are shortened to one common
length `K ≤ L`. -/
theorem C5_filter_preserves_rows {L : Nat} (s : List (String × List Char))
    (hne : s ≠ []) (hlen : ∀ row ∈ s, row.2.length = L) :
    (delete_gaped_columns s).map Prod.fst = s.map Prod.fst
    ∧ ∃ K ≤ L, ∀ row ∈ delete_gaped_columns s, row.2.length = K := by
  constructor
  · simp [delete_gaped_columns]
  · refine ⟨(keptCols s).length, ?_, fun _ hr => length_of_mem_delete hne hlen hr⟩
    calc (keptCols s).length ≤ (List.range (maxSeqLen s)).length :=
          List.Sublist.length_le (List.filter_sublist _)
      _ = L := by rw [List.length_range, maxSeqLen_eq hne hlen]

/-- Witness for C5 at the spec's end-to-end scenario. -/
theorem C5_witness :
    (delete_gaped_columns exEndToEnd).map Prod.fst = exEndToEnd.map Prod.fst
    ∧ ∃ K ≤ 4, ∀ row ∈ delete_gaped_columns exEndToEnd, row.2.length = K :=
  C5_filter_preserves_rows (L := 4) exEndToEnd (by decide) (by decide)

/-- C6: if every column of a valid alignment contains a gap in some
row, the filter succeeds and maps every identifier to the empty
sequence. -/
theorem C6_all_gapped_yields_empty_rows {L : Nat} (s : List (String × List Char))
    (hne : s ≠ []) (hlen : ∀ row ∈ s, row.2.length = L)
    (hgap : ∀ c < L, ∃ row ∈ s, row.2.getD c '-' = '-') :
    delete_gaped_columns s = s.map (fun row => (row.1, ([] : List Char))) := by
  have hkept : keptCols s = [] := by
    rw [List.eq_nil_iff_forall_not_mem]
    intro c hc
    obtain ⟨hcL, hall⟩ := (mem_keptCols_iff hne hlen).mp hc
    obtain ⟨row, hr, hEq⟩ := hgap c hcL
    exact hall row hr hEq
  rw [delete_gaped_columns_eq_map hne hlen, hkept]
  simp

/-- Witness for C6 at a two-row alignment whose two columns each
contain a gap. -/
theorem C6_witness :
    delete_gaped_columns exAllGapped =
      exAllGapped.map (fun row => (row.1, ([] : List Char))) :=
  C6_all_gapped_yields_empty_rows (L := 2) exAllGapped (by decide) (by decide)
    (by decide)

/-- C7: the filter is the identity on a valid alignment none of whose
sequences contains the gap symbol (the `L = 0` alignment included). -/
theorem C7_filter_identity_on_gap_free {L : Nat} (s : List (String × List Char))
    (_hne : s ≠ []) (hlen : ∀ row ∈ s, row.2.length = L)
    (hgap : ∀ row ∈ s, '-' ∉ row.2) :
    delete_gaped_columns s = s :=
  delete_gaped_columns_of_no_gap hlen hgap

/-- Witness for C7 at a gap-free two-row alignment. -/
theorem C7_witness : delete_gaped_columns exNoGap = exNoGap :=
  C7_filter_identity_on_gap_free (L := 2) exNoGap (by decide) (by decide)
    (by decide)

/-- C10: the constructor validates nothing: every non-empty mapping,
unequal value lengths included, is accepted, with `seq_length` the
length of the first value and `num_of_sequences` the mapping size. -/
theorem C10_init_no_validation (s : List (String × List Char)) (hne : s ≠ []) :
    ∃ a, init s = some a ∧ a.sequences = s
      ∧ a.seq_length = (s.head hne).2.length ∧ a.num_of_sequences = s.length := by
  rcases s with _ | ⟨row, rest⟩
  · exact absurd rfl hne
  · exact ⟨_, rfl, rfl, rfl, rfl⟩

/-- Witness for C10 at a mapping with values of lengths 2 and 1. -/
theorem C10_witness :
    ∃ a, init exRagged = some a ∧ a.sequences = exRagged
      ∧ a.seq_length = 2 ∧ a.num_of_sequences = 2 :=
  C10_init_no_validation exRagged (by decide)

/-- C8: chunking round-trips — for every positive width the chunks of a
sequence concatenate back to it, every chunk but the last has length
exactly the width and every chunk has length in `[1, width]`; and
`write_file` emits one pair per entry, in insertion order, whose body is
the 60-wide chunking of that entry's sequence. -/
theorem C8_serialize_round_trip (w : Nat) (hw : 1 ≤ w) (s : List Char)
    (sequences : List (String × List Char)) :
    (pychunks w s).flatten = s
    ∧ (∀ c ∈ (pychunks w s).dropLast, c.length = w)
    ∧ (∀ c ∈ pychunks w s, 1 ≤ c.length ∧ c.length ≤ w)
    ∧ (write_file_pairs sequences).length = sequences.length
    ∧ (∀ i (hi : i < sequences.length)
         (hi' : i < (write_file_pairs sequences).length),
        ((write_file_pairs sequences)[i]).1 = ">" ++ (sequences[i]).1
        ∧ ((write_file_pairs sequences)[i]).2.flatten = (sequences[i]).2) := by
  refine ⟨pychunks_flatten hw s, fun _ hc => pychunks_dropLast_length hw hc,
    fun _ hc => pychunks_mem_length hw hc, by simp [write_file_pairs], ?_⟩
  intro i hi hi'
  have h1 : (write_file_pairs sequences)[i] =
      (">" ++ (sequences[i]).1, pychunks 60 (sequences[i]).2) := by
    simp [write_file_pairs]
  rw [h1]
  exact ⟨rfl, pychunks_flatten (by omega) _⟩

/-- Witness for C8 at width 2 on the sequence `ABC` and the one-row
alignment `{"h": "ABC"}`. -/
theorem C8_witness :
    (pychunks 2 "ABC".toList).flatten = "ABC".toList
    ∧ (∀ c ∈ (pychunks 2 "ABC".toList).dropLast, c.length = 2)
    ∧ (∀ c ∈ pychunks 2 "ABC".toList, 1 ≤ c.length ∧ c.length ≤ 2)
    ∧ (write_file_pairs [("h", "ABC".toList)]).length = [("h", "ABC".toList)].length
    ∧ (∀ i (hi : i < [("h", "ABC".toList)].length)
         (hi' : i < (write_file_pairs [("h", "ABC".toList)]).length),
        ((write_file_pairs [("h", "ABC".toList)])[i]).1
            = ">" ++ ([("h", "ABC".toList)][i]).1
        ∧ ((write_file_pairs [("h", "ABC".toList)])[i]).2.flatten
            = ([("h", "ABC".toList)][i]).2) :=
  C8_serialize_round_trip 2 (by decide) "ABC".toList [("h", "ABC".toList)]

/-- C9 counterexample: the spec's `Serialize` fails at the non-positive
width 0, but the code's serializer — which takes no width at all —
still produces output there: on `{"h": "A"}` it emits the pair
`(">h", ["A"])` instead of failing with `InvalidConfiguration`. -/
theorem C9_counterexample :
    serializeSpec 0 [("h", "A".toList)] = none
    ∧ write_file_pairs [("h", "A".toList)] = [(">h", ["A".toList])] := by
  refine ⟨rfl, ?_⟩
  have hd : (['A'] : List Char).drop 60 = [] := by decide
  have h60 : pychunks 60 (['A'] : List Char) = [['A']] := by
    rw [pychunks, dif_neg (by decide), hd, pychunks_nil]
    decide
  simp [write_file_pairs, h60]

/-- C9 (amended): the code's serializer is not configurable — it always
chunks at the fixed width 60, coinciding with the spec's `Serialize`
exactly at width 60, and it never fails: every emitted chunk has length
in `[1, 60]` and no `InvalidConfiguration` path exists. -/
theorem C9_fixed_width_sixty (sequences : List (String × List Char)) :
    serializeSpec 60 sequences = some (write_file_pairs sequences)
    ∧ ∀ pair ∈ write_file_pairs sequences, ∀ c ∈ pair.2,
        1 ≤ c.length ∧ c.length ≤ 60 := by
  constructor
  · rw [serializeSpec, if_neg (by decide)]
    rfl
  · intro pair hp c hc
    obtain ⟨row, _, rfl⟩ := List.mem_map.mp hp
    exact pychunks_mem_length (by omega) hc

end Fasta
